import Mathlib

/-!
Verification of the GRIB2 core routines of NCEPLIBS-g2c (as vendored by
grib2io).  Byte buffers are modelled as functions `Nat → Nat` (each value the
content of one octet; C guarantees values < 256, and every observation below
reads an octet only through its low 8 bits).  Machine integers (`g2int`,
64-bit signed) are modelled as `Int`, and 32-bit stores truncate explicitly.
Fallible or possibly diverging loops return `Option`, with `none` marking a
computation the C code would never complete.
-/

namespace Grib2

/-- Modelled from the spec: the bit read primitive of the Bit I/O Engine
(`gbit`/`gbits` of gbits.c, which is not under src/).  `getBit buf i` is bit
`i` of the buffer in big-endian order: bit 0 is the most significant bit of
octet 0. -/
def getBit (buf : Nat → Nat) (i : Nat) : Nat :=
  buf (i / 8) / 2 ^ (7 - i % 8) % 2

/-- Modelled from the spec: `gbit buf ofst w` returns the `w`-bit big-endian
unsigned integer occupying the bit range `[ofst, ofst + w)` of the buffer
(spec 4.1), regardless of byte alignment. -/
def gbit (buf : Nat → Nat) (ofst : Nat) : Nat → Nat
  | 0 => 0
  | w + 1 => gbit buf ofst w * 2 + getBit buf (ofst + w)

/-- Octet `b` with its bit at position `p` (counting from the least
significant bit) replaced by `v`, the adjacent bits untouched. -/
def setBitVal (b p v : Nat) : Nat :=
  b / 2 ^ (p + 1) * 2 ^ (p + 1) + v * 2 ^ p + b % 2 ^ p

/-- Buffer update setting big-endian bit `i` to `v` (`v < 2`). -/
def bufSetBit (buf : Nat → Nat) (i v : Nat) : Nat → Nat :=
  fun j => if j = i / 8 then setBitVal (buf (i / 8)) (7 - i % 8) v else buf j

/-- Modelled from the spec: the bit write primitive of the Bit I/O Engine
(`sbit` of gbits.c, which is not under src/).  `sbit buf ofst val w` masks
`val` to its low `w` bits and left-aligns them into the bit range
`[ofst, ofst + w)` without disturbing adjacent bits (spec 4.1). -/
def sbit (buf : Nat → Nat) (ofst : Nat) : Nat → Nat → (Nat → Nat)
  | _, 0 => buf
  | val, w + 1 => bufSetBit (sbit buf ofst (val / 2) w) (ofst + w) (val % 2)

/-- Plain byte store `cgrib[i] = v`. -/
def writeByte (buf : Nat → Nat) (i v : Nat) : Nat → Nat :=
  fun j => if j = i then v else buf j

/-- Outcome of the section scan loop of `g2_gribend` (g2_gribend.c): either the
loop exits normally carrying the section number of the last section, or the
accumulated length overshoots the stored total. -/
inductive ScanOut where
  | last : Nat → ScanOut
  | mismatch : ScanOut

/-- The `for (;;)` scan of g2_gribend.c lines 64-83: starting from `len`, read
each 4-octet section length, accumulate, and stop when the accumulated length
equals (`last`, also reading the 1-octet section number) or exceeds
(`mismatch`) the stored total `lencurr`.  `fuel` bounds the iterations; `none`
marks a scan the C loop would never complete (a zero section length below the
total repeats forever). -/
def gribendLoop (cgrib : Nat → Nat) (lencurr : Nat) : Nat → Nat → Option ScanOut
  | _, 0 => none
  | len, fuel + 1 =>
    if len + gbit cgrib (len * 8) 32 = lencurr then
      some (ScanOut.last (gbit cgrib (len * 8 + 32) 8))
    else if lencurr < len + gbit cgrib (len * 8) 32 then
      some ScanOut.mismatch
    else gribendLoop cgrib lencurr (len + gbit cgrib (len * 8) 32) fuel

/-- Success tail of g2_gribend.c (lines 94-108): write the four end-marker
octets 0x37 at `lencurr .. lencurr+3`, then store `lencurr + 4` into the
32-bit total-length field at bit offset 96. -/
def gribendFinal (cgrib : Nat → Nat) (lencurr : Nat) : Nat → Nat :=
  sbit (writeByte (writeByte (writeByte (writeByte cgrib lencurr 55)
    (lencurr + 1) 55) (lencurr + 2) 55) (lencurr + 3) 55) 96 (lencurr + 4) 32

/-- g2_gribend of g2_gribend.c: check the start marker, scan the sections
against the stored total length, require the last section to be number 7, then
append the end marker and update the total.  Return value is paired with the
resulting buffer; the C routine returns the value and mutates the buffer in
place. -/
def g2_gribend (cgrib : Nat → Nat) : Option (Int × (Nat → Nat)) :=
  if cgrib 0 = 71 ∧ cgrib 1 = 82 ∧ cgrib 2 = 73 ∧ cgrib 3 = 66 then
    match gribendLoop cgrib (gbit cgrib 96 32) 16 (gbit cgrib 96 32 + 1) with
    | none => none
    | some ScanOut.mismatch => some (-3, cgrib)
    | some (ScanOut.last isecnum) =>
      if isecnum = 7 then
        some (((gbit cgrib 96 32 + 4 : Nat) : Int),
          gribendFinal cgrib (gbit cgrib 96 32))
      else some (-4, cgrib)
  else some (-1, cgrib)

/-- The buffer declares, at byte position `pos` and following, consecutive
sections with the given list of 4-octet section lengths. -/
def sectionsAt (cgrib : Nat → Nat) : Nat → List Nat → Bool
  | _, [] => true
  | pos, l :: ls => (gbit cgrib (pos * 8) 32 == l) && sectionsAt cgrib (pos + l) ls

/-- A well-formed unfinalized message: GRIB marker, one section of length 21
with section number 7, stored total 37 = 16 + 21. -/
def bufGribendOk : Nat → Nat := fun i =>
  if i = 0 then 71 else if i = 1 then 82 else if i = 2 then 73 else if i = 3 then 66
  else if i = 15 then 37 else if i = 19 then 21 else if i = 20 then 7 else 0

/-- Like `bufGribendOk` but the single section is section 1, not section 7
(a message holding only section 0 and section 1). -/
def bufGribendSec1 : Nat → Nat := fun i =>
  if i = 0 then 71 else if i = 1 then 82 else if i = 2 then 73 else if i = 3 then 66
  else if i = 15 then 37 else if i = 19 then 21 else if i = 20 then 1 else 0

/-- An already finalized message: stored total 41 = 16 + 21 + 4, one section of
length 21 (number 7), end marker octets 0x37 at bytes 37-40. -/
def bufGribendDone : Nat → Nat := fun i =>
  if i = 0 then 71 else if i = 1 then 82 else if i = 2 then 73 else if i = 3 then 66
  else if i = 15 then 41 else if i = 19 then 21 else if i = 20 then 7
  else if 37 ≤ i ∧ i ≤ 40 then 55 else 0

/-- Adversarial buffer for the 32-bit overflow of the finalized total: stored
total 2^32 - 1 = 16 + (2^32 - 17), a single section of declared length
2^32 - 17 whose section number is 7. -/
def bufGribendHuge : Nat → Nat := fun i =>
  if i = 0 then 71 else if i = 1 then 82 else if i = 2 then 73 else if i = 3 then 66
  else if 12 ≤ i ∧ i ≤ 18 then 255 else if i = 19 then 239 else if i = 20 then 7 else 0

/-- Modelled from the spec: decode of a reference value stored as a 32-bit
IEEE-754 single-precision bit pattern (rdieee.c is not under src/; spec 6
fixes the encoding).  Exact rational value; the all-ones exponent (infinity
and NaN, outside the modelled domain) is mapped to 0. -/
def rdieeeQ (a : Int) : ℚ :=
  let p : Nat := (a % 2 ^ 32).toNat
  let s : Nat := p / 2 ^ 31
  let e : Nat := p / 2 ^ 23 % 2 ^ 8
  let m : Nat := p % 2 ^ 23
  let sign : ℚ := if s = 1 then -1 else 1
  if e = 0 then sign * m * (2 : ℚ) ^ (-(149 : ℤ))
  else if e = 255 then 0
  else sign * (2 : ℚ) ^ ((e : ℤ) - 127) * (1 + (m : ℚ) / 2 ^ 23)

/-- simunpack of simunpack.c: decode a simple-packing (DRT 5.0) data field.
`idrstmpl` holds the template values (0: reference bits, 1: binary scale E,
2: decimal scale D, 3: bit width W).  When W is nonzero, `ndpts` W-bit
integers are unpacked and mapped through `(I * 2^E + R) * 10^(-D)`; when W is
zero every value is the reference value.  Field values carried exactly in ℚ
(the C code computes in binary32, a rounding of these values); the
intermediate allocation is modelled as always succeeding.  Returns the status
code and the output field. -/
def simunpack (cpack : Nat → Nat) (idrstmpl : Nat → Int) (ndpts : Nat) : Int × List ℚ :=
  let ref := rdieeeQ (idrstmpl 0)
  let bscale : ℚ := (2 : ℚ) ^ (idrstmpl 1)
  let dscale : ℚ := (10 : ℚ) ^ (-(idrstmpl 2))
  let nbits := idrstmpl 3
  if nbits ≠ 0 then
    (0, (List.range ndpts).map fun j =>
      ((gbit cpack (j * nbits.toNat) nbits.toNat : ℚ) * bscale + ref) * dscale)
  else
    (0, List.replicate ndpts ref)

/-- A DRT 5.0 instance whose bit width (entry 3) is zero, with an arbitrary
reference-value bit pattern in entry 0. -/
def drsTmplConst : Nat → Int := fun i => if i = 0 then 1097859072 else 0

/-- Output of the opaque Grid Definition Section decoder g2_unpack3 (an
external collaborator in spec 6; not under src/): the decoded section array
`igds` (entry 4 is the grid definition template number) and the decoded
template array `igdstmpl`. -/
structure GdsResult where
  igds : Nat → Int
  igdstmpl : Nat → Int

/-- getdim of getdim.c: dimensions and scanning mode of a packed GDS.  The
inner decode is passed as an `Option GdsResult` (`none` for a nonzero error
from g2_unpack3); `_w0`, `_h0`, `s0` are the values held by the caller's three
output variables before the call.  Returns (return value, width, height,
iscan).  Always returns 0. -/
def getdim (res : Option GdsResult) (_w0 _h0 s0 : Int) : Int × Int × Int × Int :=
  match res with
  | some r =>
    if r.igds 4 = 0 ∨ r.igds 4 = 1 ∨ r.igds 4 = 2 ∨ r.igds 4 = 3 then
      (0, r.igdstmpl 7, r.igdstmpl 8, r.igdstmpl 18)
    else if r.igds 4 = 10 then (0, r.igdstmpl 7, r.igdstmpl 8, r.igdstmpl 15)
    else if r.igds 4 = 20 then (0, r.igdstmpl 7, r.igdstmpl 8, r.igdstmpl 17)
    else if r.igds 4 = 30 then (0, r.igdstmpl 7, r.igdstmpl 8, r.igdstmpl 17)
    else if r.igds 4 = 40 ∨ r.igds 4 = 41 ∨ r.igds 4 = 42 ∨ r.igds 4 = 43 then
      (0, r.igdstmpl 7, r.igdstmpl 8, r.igdstmpl 18)
    else if r.igds 4 = 90 then (0, r.igdstmpl 7, r.igdstmpl 8, r.igdstmpl 16)
    else if r.igds 4 = 110 then (0, r.igdstmpl 7, r.igdstmpl 8, r.igdstmpl 15)
    else (0, 0, 0, 0)
  | none => (0, 0, 0, s0)

/-- getpoly of getpoly.c: pentagonal resolution parameters J, K, M of a packed
GDS using spherical-harmonic templates 5.50-5.53, zeros otherwise.  Same
conventions as `getdim`; returns (return value, jj, kk, mm) and always
returns 0. -/
def getpoly (res : Option GdsResult) (_j0 _k0 _m0 : Int) : Int × Int × Int × Int :=
  match res with
  | some r =>
    if r.igds 4 = 50 ∨ r.igds 4 = 51 ∨ r.igds 4 = 52 ∨ r.igds 4 = 53 then
      (0, r.igdstmpl 0, r.igdstmpl 1, r.igdstmpl 2)
    else (0, 0, 0, 0)
  | none => (0, 0, 0, 0)

/-- A successfully decoded GDS whose template number 9999 is outside every
supported set. -/
def gdsUnknown : GdsResult := ⟨fun _ => 9999, fun _ => 0⟩

/-- Byte `i` of a finite byte source (0 beyond the end, as for a read past
EOF). -/
def fileByte (file : List Nat) (i : Nat) : Nat := file.getD i 0

/-- The 4-octet read at stream position `q` that seekgb.c compares against
926365495: it succeeds exactly when a full item is available (`q + 4` within
the source) and the 4 octets are the "7777" pattern (0x37 each; the 32-bit
comparison holds in either byte order exactly when all four octets are
0x37). -/
def endOk (file : List Nat) (q : Nat) : Bool :=
  decide (q + 4 ≤ file.length) &&
  (file.getD q 0 == 55) && (file.getD (q + 1) 0 == 55) &&
  (file.getD (q + 2) 0 == 55) && (file.getD (q + 3) 0 == 55)

/-- The end marker is present at (integer, possibly negative) source position
`p`: the property the claim asserts of the declared end-of-message position.
No position below 0 or past the end of the source carries it. -/
def markerAt (file : List Nat) (p : Int) : Bool :=
  decide (0 ≤ p) && decide (p.toNat + 4 ≤ file.length) &&
  (file.getD p.toNat 0 == 55) && (file.getD (p.toNat + 1) 0 == 55) &&
  (file.getD (p.toNat + 2) 0 == 55) && (file.getD (p.toNat + 3) 0 == 55)

/-- The stream position at which the end-marker octets are actually read for
the candidate at `k` (seekgb.c lines 65-67): the return of
`fseek(lugb, ipos+k+lengrib-4, SEEK_SET)` is never inspected, so a negative
target offset makes the seek fail and the following `fread` reads from the
current stream position `spos` instead. -/
def endReadPos (ipos k lengrib spos : Nat) : Nat :=
  if 4 ≤ ipos + k + lengrib then ipos + k + lengrib - 4 else spos

/-- The chunk buffer after the `fread` at file position `ipos`: the first
`nread` octets copied from the source, the octets beyond them still holding
the previous contents `cb` of the allocation (the previous chunk, or the
uninitialized memory returned by malloc). -/
def chunkBuf (file : List Nat) (ipos nread : Nat) (cb : Nat → Nat) : Nat → Nat :=
  fun i => if i < nread then file.getD (ipos + i) 0 else cb i

/-- The declared message length at candidate position `k` of chunk `c`
(seekgb.c): 3 octets at `k + 4` for edition 1, 4 octets at `k + 12` for
edition 2, selected by the edition octet at `k + 7`. -/
def candLen (c : Nat → Nat) (k : Nat) : Nat :=
  if gbit c ((k + 7) * 8) 8 = 1 then gbit c ((k + 4) * 8) 24
  else gbit c ((k + 12) * 8) 32

/-- Inner candidate loop of seekgb.c: try positions `k, k+1, ...` (at most
`rem` of them, `rem` starting as `nread - 8`); a candidate matches when the
4-octet start marker 1196575042 ("GRIB") is at `k`, the octet at `k + 7` is 1
or 2, and the 4-octet read at `endReadPos` (the declared end-of-message
position when the seek target is nonnegative, the current stream position
`spos` when the unchecked fseek fails) finds the end marker.  A failed
candidate advances the stream position by the octets actually read and the
scan continues at the next byte.  Returns the first matching candidate with
its declared length. -/
def scanChunk (file : List Nat) (c : Nat → Nat) (ipos : Nat) :
    Nat → Nat → Nat → Option (Nat × Nat)
  | 0, _, _ => none
  | rem + 1, k, spos =>
    if gbit c (k * 8) 32 = 1196575042 ∧
        (gbit c ((k + 7) * 8) 8 = 1 ∨ gbit c ((k + 7) * 8) 8 = 2) then
      if endOk file (endReadPos ipos k (candLen c k) spos) = true then
        some (k, candLen c k)
      else scanChunk file c ipos rem (k + 1)
        (endReadPos ipos k (candLen c k) spos +
          min 4 (file.length - endReadPos ipos k (candLen c k) spos))
    else scanChunk file c ipos rem (k + 1) spos

/-- Outer chunk loop of seekgb.c: read a chunk of at most `mseek` octets at
`ipos` into the buffer (previous contents `cb`), scan it with the stream
position starting just past the read, stop on a matching candidate with
nonzero declared length (`some (some (lskip, lgrib))`), continue at
`ipos + nread - 8` while the read was full, and report not-found
(`some none`, the C code leaving `*lgrib` 0) on a short read.  `none` marks a
scan the C loop would never complete. -/
def seekgbLoop (file : List Nat) (mseek : Nat) : (Nat → Nat) → Nat → Nat → Option (Option (Nat × Nat))
  | _, _, 0 => none
  | cb, ipos, fuel + 1 =>
    match scanChunk file (chunkBuf file ipos (min mseek (file.length - ipos)) cb) ipos
        (min mseek (file.length - ipos) - 8) 0 (ipos + min mseek (file.length - ipos)) with
    | some (k, lengrib) =>
      if lengrib ≠ 0 then some (some (ipos + k, lengrib))
      else if min mseek (file.length - ipos) = mseek then
        seekgbLoop file mseek (chunkBuf file ipos (min mseek (file.length - ipos)) cb)
          (ipos + (min mseek (file.length - ipos) - 8)) fuel
      else some none
    | none =>
      if min mseek (file.length - ipos) = mseek then
        seekgbLoop file mseek (chunkBuf file ipos (min mseek (file.length - ipos)) cb)
          (ipos + (min mseek (file.length - ipos) - 8)) fuel
      else some none

/-- seekgb of seekgb.c: search the byte source from offset `iseek` in chunks
of `mseek` octets for the next GRIB message.  `heap` is the content of the
malloc allocation before the first read (uninitialized memory the candidate
loop can reach through the edition-2 length field near the chunk end); the
theorems below hold for every `heap`. -/
def seekgb (file : List Nat) (iseek mseek : Nat) (heap : Nat → Nat) :
    Option (Option (Nat × Nat)) :=
  seekgbLoop file mseek heap iseek (file.length + 2)

/-- A 39-octet source: two junk octets, then a GRIB2 message at offset 2
declaring total length 37, ending with the four 0x37 end-marker octets. -/
def fileC4 : List Nat :=
  [1, 1, 71, 82, 73, 66, 0, 0, 0, 2, 0, 0, 0, 0, 0, 0, 0, 37,
   0, 0, 0, 0, 0, 0, 0, 0, 0, 0, 0, 0, 0, 0, 0, 0, 0, 55, 55, 55, 55]

/-- A 20-octet source starting with a GRIB edition-2 candidate whose declared
message length is 3: the computed end position 0 + 3 - 4 is negative, the
unchecked fseek fails, and the 4 octets at the stale stream position 16 (the
end of the 16-octet chunk read) are the 0x37 end-marker pattern. -/
def fileC4Bad : List Nat :=
  [71, 82, 73, 66, 0, 0, 0, 2, 0, 0, 0, 0, 0, 0, 0, 3, 55, 55, 55, 55]

/-- g2_unpack2 of g2_unpack2.c: decode Section 2 (Local Use).  Reads the
4-octet declared length and the 1-octet section number at bit offset `iofst`,
advancing the cursor by 40 bits; payload length is declared length minus 5.
Result is (ierr, new cursor, lencsec2, csec2): section number other than 2
gives error 2; zero payload gives success with a null pointer; a negative
allocation size (declared length below 4) gives error 6 (the C malloc of a
negative g2int converted to size_t cannot succeed); otherwise success with a
byte-for-byte copy of the payload, the cursor advanced past it.  The cursor is
an `Int` because a declared length of exactly 4 moves it backwards. -/
def g2_unpack2 (cgrib : Nat → Nat) (iofst : Nat) : Int × Int × Int × Option (List Nat) :=
  if gbit cgrib (iofst + 32) 8 ≠ 2 then (2, (iofst : Int) + 40, 0, none)
  else if (gbit cgrib iofst 32 : Int) - 5 = 0 then (0, (iofst : Int) + 40, 0, none)
  else if (gbit cgrib iofst 32 : Int) - 5 + 1 < 0 then (6, (iofst : Int) + 40, 0, none)
  else (0, (iofst : Int) + 40 + ((gbit cgrib iofst 32 : Int) - 5) * 8,
    (gbit cgrib iofst 32 : Int) - 5,
    some ((List.range ((gbit cgrib iofst 32 : Int) - 5).toNat).map
      (fun j => cgrib ((iofst + 40) / 8 + j))))

/-- A buffer positioned at a section whose declared length is 0 and whose
section number octet is 2: the payload length computes to -5. -/
def bufUnpack2Bad : Nat → Nat := fun i => if i = 4 then 2 else 0

/-- A buffer positioned at a section 2 of declared length 7: payload the two
octets 9, 8 at byte positions 5 and 6. -/
def bufUnpack2Ok : Nat → Nat := fun i =>
  if i = 3 then 7 else if i = 4 then 2 else if i = 5 then 9
  else if i = 6 then 8 else 0

/-- g2_unpack6 of g2_unpack6.c: decode Section 6 (Bit-Map).  Skips the length
octets, checks the section number (else error 2 with neither output written),
reads the bit-map indicator; indicator 0 with `ngpts > 0` unpacks `ngpts`
single-bit flags (cursor advanced by `ngpts` bits), indicator 0 with
`ngpts ≤ 0` leaves the bit-map pointer null and returns error 6, any other
indicator returns success with a null bit-map.  Result is
(ierr, new cursor, ibmap output if written, bmap output). -/
def g2_unpack6 (cgrib : Nat → Nat) (iofst : Nat) (ngpts : Int) :
    Int × Nat × Option Nat × Option (List Nat) :=
  if gbit cgrib (iofst + 32) 8 ≠ 6 then (2, iofst + 40, none, none)
  else if gbit cgrib (iofst + 40) 8 = 0 then
    if 0 < ngpts then
      (0, iofst + 48 + ngpts.toNat, some (gbit cgrib (iofst + 40) 8),
        some ((List.range ngpts.toNat).map fun j => gbit cgrib (iofst + 48 + j) 1))
    else (6, iofst + 48, some (gbit cgrib (iofst + 40) 8), none)
  else (0, iofst + 48, some (gbit cgrib (iofst + 40) 8), none)

/-- A buffer whose section number octet (byte 4) is 6 and whose bit-map
indicator octet (byte 5) is 0. -/
def bufUnpack6 : Nat → Nat := fun i => if i = 4 then 6 else 0

/-- One row of the compiled-in Data Representation Template registry
(drstemplates.h, not under src/; the registry is treated as a parameter):
template number, number of entries, needs-extension flag, octet map. -/
structure DrsEntry where
  template_num : Int
  mapdrslen : Nat
  needext : Bool
  mapdrs : List Int
deriving DecidableEq

/-- The gtemplate struct of grib2.h as filled by drstemplates.c: family type,
template number, fixed map and its length, needs-extension flag, and the
extension (length and octet map, empty until resolved). -/
structure Gtemplate where
  type : Int
  num : Int
  maplen : Nat
  needext : Bool
  map : List Int
  extlen : Int
  ext : List Int
deriving DecidableEq

/-- First registry row matching the requested template number (the search of
getdrsindex in drstemplates.c). -/
def drsfind : List DrsEntry → Int → Option DrsEntry
  | [], _ => none
  | e :: rest, number => if e.template_num = number then some e else drsfind rest number

/-- getdrsindex of drstemplates.c: index of DRT 5.number in the registry,
-1 when absent. -/
def getdrsindexAux : List DrsEntry → Int → Nat → Int
  | [], _, _ => -1
  | e :: rest, number, j =>
    if e.template_num = number then (j : Int) else getdrsindexAux rest number (j + 1)

/-- getdrsindex of drstemplates.c, started at index 0. -/
def getdrsindex (table : List DrsEntry) (number : Int) : Int :=
  getdrsindexAux table number 0

/-- getdrstemplate of drstemplates.c: look the number up and build the
gtemplate with type 5, the registry row fields, and an empty extension;
null (`none`) when the number is absent. -/
def getdrstemplate (table : List DrsEntry) (number : Int) : Option Gtemplate :=
  (drsfind table number).map fun e =>
    ⟨5, e.template_num, e.mapdrslen, e.needext, e.mapdrs, 0, []⟩

/-- extdrstemplate of drstemplates.c: null when the number is absent; the
fixed layout unchanged when the needs-extension flag is unset; for template
number 1, an extension of `list 10 + list 12` octet-map entries, each 4. -/
def extdrstemplate (table : List DrsEntry) (number : Int) (list : Nat → Int) :
    Option Gtemplate :=
  if getdrsindex table number = -1 then none
  else
    match getdrstemplate table number with
    | none => none
    | some t =>
      if !t.needext then some t
      else if number = 1 then
        some ⟨t.type, t.num, t.maplen, t.needext, t.map, list 10 + list 12,
          List.replicate (list 10 + list 12).toNat 4⟩
      else some t

/-- A two-row registry: template 0 (flag unset) and template 1 (flag set). -/
def drsTableW : List DrsEntry :=
  [⟨0, 18, false, [4, 1, 1, 1, 1]⟩, ⟨1, 18, true, [4, 1, 1, 1, 1]⟩]

theorem mod_two_pow_succ (v w : Nat) :
    v % 2 ^ (w + 1) = v / 2 % 2 ^ w * 2 + v % 2 := by
  have h1 : v = 2 ^ (w + 1) * (v / 2 / 2 ^ w) + (v / 2 % 2 ^ w * 2 + v % 2) := by
    have h2 := Nat.div_add_mod v 2
    have h3 := Nat.div_add_mod (v / 2) (2 ^ w)
    calc v = 2 * (v / 2) + v % 2 := by omega
    _ = 2 * (2 ^ w * (v / 2 / 2 ^ w) + v / 2 % 2 ^ w) + v % 2 := by rw [h3]
    _ = 2 ^ (w + 1) * (v / 2 / 2 ^ w) + (v / 2 % 2 ^ w * 2 + v % 2) := by
        rw [pow_succ]; ring
  have hlt : v / 2 % 2 ^ w * 2 + v % 2 < 2 ^ (w + 1) := by
    have hx : v / 2 % 2 ^ w < 2 ^ w := Nat.mod_lt _ (Nat.two_pow_pos w)
    have hy : v % 2 < 2 := Nat.mod_lt _ (by omega)
    rw [pow_succ]; omega
  conv_lhs => rw [h1]
  rw [Nat.mul_comm, Nat.add_comm, Nat.add_mul_mod_self_right, Nat.mod_eq_of_lt hlt]

theorem gbit_lt (buf : Nat → Nat) (ofst : Nat) : ∀ w, gbit buf ofst w < 2 ^ w := by
  intro w
  induction w with
  | zero => simp [gbit]
  | succ w ih =>
    have hb : getBit buf (ofst + w) < 2 := Nat.mod_lt _ (by omega)
    simp only [gbit, pow_succ]
    omega

theorem gbit_congr (b1 b2 : Nat → Nat) (ofst : Nat) :
    ∀ w, (∀ j, ofst ≤ j → j < ofst + w → getBit b1 j = getBit b2 j) →
    gbit b1 ofst w = gbit b2 ofst w := by
  intro w
  induction w with
  | zero => intro _; rfl
  | succ w ih =>
    intro h
    simp only [gbit]
    rw [ih (fun j hj1 hj2 => h j hj1 (by omega)), h (ofst + w) (by omega) (by omega)]

theorem getBit_shift (buf : Nat → Nat) (d j : Nat) :
    getBit (fun i => buf (d + i)) j = getBit buf (d * 8 + j) := by
  simp only [getBit]
  have h1 : (d * 8 + j) / 8 = d + j / 8 := by omega
  have h2 : (d * 8 + j) % 8 = j % 8 := by omega
  rw [h1, h2]

theorem gbit_shift (buf : Nat → Nat) (d ofst : Nat) :
    ∀ w, gbit (fun i => buf (d + i)) ofst w = gbit buf (d * 8 + ofst) w := by
  intro w
  induction w with
  | zero => rfl
  | succ w ih =>
    simp only [gbit, ih, getBit_shift]
    rw [Nat.add_assoc]

theorem gbit_append (buf : Nat → Nat) (ofst w1 : Nat) :
    ∀ w2, gbit buf ofst (w1 + w2) = gbit buf ofst w1 * 2 ^ w2 + gbit buf (ofst + w1) w2 := by
  intro w2
  induction w2 with
  | zero => simp [gbit]
  | succ w2 ih =>
    have h : w1 + (w2 + 1) = (w1 + w2) + 1 := by omega
    rw [h]
    simp only [gbit, ih, pow_succ]
    have h2 : ofst + (w1 + w2) = ofst + w1 + w2 := by omega
    rw [h2]; ring

theorem gbit_byte_aux (buf : Nat → Nat) (i : Nat) :
    ∀ n, n ≤ 8 → gbit buf (i * 8) n = buf i / 2 ^ (8 - n) % 2 ^ n := by
  intro n
  induction n with
  | zero => intro _; simp [gbit, Nat.mod_one]
  | succ n ih =>
    intro hn
    have h1 : getBit buf (i * 8 + n) = buf i / 2 ^ (7 - n) % 2 := by
      simp only [getBit]
      have h2 : (i * 8 + n) / 8 = i := by omega
      have h3 : (i * 8 + n) % 8 = n := by omega
      rw [h2, h3]
    have h4 : buf i / 2 ^ (8 - n) = buf i / 2 ^ (7 - n) / 2 := by
      rw [Nat.div_div_eq_div_mul, ← pow_succ]
      congr 2
      omega
    simp only [gbit, h1, ih (by omega), h4]
    have h5 : 8 - (n + 1) = 7 - n := by omega
    rw [h5, mod_two_pow_succ]

theorem gbit_byte (buf : Nat → Nat) (i : Nat) : gbit buf (i * 8) 8 = buf i % 256 := by
  have h := gbit_byte_aux buf i 8 (by omega)
  simpa using h

theorem gbit32_bytes (buf : Nat → Nat) (i : Nat) :
    gbit buf (i * 8) 32 =
      buf i % 256 * 2 ^ 24 + buf (i + 1) % 256 * 2 ^ 16 +
        buf (i + 2) % 256 * 2 ^ 8 + buf (i + 3) % 256 := by
  have h1 : gbit buf (i * 8) 32 = gbit buf (i * 8) 8 * 2 ^ 24 + gbit buf ((i + 1) * 8) 24 := by
    have h := gbit_append buf (i * 8) 8 24
    rw [show i * 8 + 8 = (i + 1) * 8 by ring] at h
    exact h
  have h2 : gbit buf ((i + 1) * 8) 24 =
      gbit buf ((i + 1) * 8) 8 * 2 ^ 16 + gbit buf ((i + 2) * 8) 16 := by
    have h := gbit_append buf ((i + 1) * 8) 8 16
    rw [show (i + 1) * 8 + 8 = (i + 2) * 8 by ring] at h
    exact h
  have h3 : gbit buf ((i + 2) * 8) 16 =
      gbit buf ((i + 2) * 8) 8 * 2 ^ 8 + gbit buf ((i + 3) * 8) 8 := by
    have h := gbit_append buf ((i + 2) * 8) 8 8
    rw [show (i + 2) * 8 + 8 = (i + 3) * 8 by ring] at h
    exact h
  rw [h1, h2, h3, gbit_byte, gbit_byte, gbit_byte, gbit_byte]
  ring

theorem byte_decomp (b p : Nat) :
    b = b / 2 ^ (p + 1) * 2 ^ (p + 1) + b / 2 ^ p % 2 * 2 ^ p + b % 2 ^ p := by
  have h1 := Nat.div_add_mod b (2 ^ p)
  have h2 := Nat.div_add_mod (b / 2 ^ p) 2
  have h3 : b / 2 ^ p / 2 = b / 2 ^ (p + 1) := by
    rw [Nat.div_div_eq_div_mul, ← pow_succ]
  rw [h3] at h2
  calc b = 2 ^ p * (b / 2 ^ p) + b % 2 ^ p := h1.symm
  _ = 2 ^ p * (2 * (b / 2 ^ (p + 1)) + b / 2 ^ p % 2) + b % 2 ^ p := by rw [h2]
  _ = b / 2 ^ (p + 1) * 2 ^ (p + 1) + b / 2 ^ p % 2 * 2 ^ p + b % 2 ^ p := by
      rw [pow_succ]; ring

theorem extract_low (A v r p q : Nat) (hq : q < p) (hr : r < 2 ^ p) :
    (A * 2 ^ (p + 1) + v * 2 ^ p + r) / 2 ^ q % 2 = r / 2 ^ q % 2 := by
  have e1 : 2 ^ (p + 1) = 2 ^ q * (2 * 2 ^ (p - q)) := by
    rw [← pow_succ']
    rw [← pow_add]
    congr 1
    omega
  have e2 : 2 ^ p = 2 ^ q * (2 * 2 ^ (p - q - 1)) := by
    rw [← pow_succ']
    rw [← pow_add]
    congr 1
    omega
  have hX : A * 2 ^ (p + 1) + v * 2 ^ p + r =
      r + 2 ^ q * (2 * (A * 2 ^ (p - q) + v * 2 ^ (p - q - 1))) := by
    rw [e1, e2]; ring
  rw [hX, Nat.add_mul_div_left _ _ (Nat.two_pow_pos q), Nat.add_mul_mod_self_left]

theorem extract_self (A v r p : Nat) (hv : v < 2) (hr : r < 2 ^ p) :
    (A * 2 ^ (p + 1) + v * 2 ^ p + r) / 2 ^ p % 2 = v := by
  have hX : A * 2 ^ (p + 1) + v * 2 ^ p + r = r + 2 ^ p * (v + 2 * A) := by
    rw [pow_succ]; ring
  rw [hX, Nat.add_mul_div_left _ _ (Nat.two_pow_pos p), Nat.div_eq_of_lt hr]
  omega

theorem extract_high (A v r p q : Nat) (hq : p < q) (hv : v < 2) (hr : r < 2 ^ p) :
    (A * 2 ^ (p + 1) + v * 2 ^ p + r) / 2 ^ q % 2 = A / 2 ^ (q - p - 1) % 2 := by
  have hsmall : v * 2 ^ p + r < 2 ^ (p + 1) := by
    have h2 : 2 ^ (p + 1) = 2 ^ p * 2 := pow_succ 2 p
    rcases (by omega : v = 0 ∨ v = 1) with rfl | rfl <;> omega
  have e1 : 2 ^ q = 2 ^ (p + 1) * 2 ^ (q - p - 1) := by
    rw [← pow_add]
    congr 1
    omega
  have hdiv : (A * 2 ^ (p + 1) + v * 2 ^ p + r) / 2 ^ (p + 1) = A := by
    have hX : A * 2 ^ (p + 1) + v * 2 ^ p + r = (v * 2 ^ p + r) + 2 ^ (p + 1) * A := by ring
    rw [hX, Nat.add_mul_div_left _ _ (Nat.two_pow_pos (p + 1)), Nat.div_eq_of_lt hsmall]
    omega
  rw [e1, ← Nat.div_div_eq_div_mul, hdiv]

theorem getBit_bufSetBit_self (buf : Nat → Nat) (i v : Nat) (hv : v < 2) :
    getBit (bufSetBit buf i v) i = v := by
  simp only [getBit, bufSetBit, if_pos rfl, setBitVal]
  exact extract_self _ _ _ _ hv (Nat.mod_lt _ (Nat.two_pow_pos _))

theorem getBit_bufSetBit_ne (buf : Nat → Nat) (i v j : Nat) (hv : v < 2) (hne : j ≠ i) :
    getBit (bufSetBit buf i v) j = getBit buf j := by
  by_cases hbyte : j / 8 = i / 8
  · have hmod : j % 8 ≠ i % 8 := by omega
    have hj8 : j % 8 < 8 := Nat.mod_lt _ (by omega)
    have hi8 : i % 8 < 8 := Nat.mod_lt _ (by omega)
    simp only [getBit, bufSetBit]
    rw [if_pos hbyte, hbyte]
    simp only [setBitVal]
    rcases Nat.lt_or_ge (7 - j % 8) (7 - i % 8) with hlt | hge
    · rw [extract_low _ _ _ _ _ hlt (Nat.mod_lt _ (Nat.two_pow_pos _))]
      conv_rhs => rw [byte_decomp (buf (i / 8)) (7 - i % 8)]
      rw [extract_low _ _ _ _ _ hlt (Nat.mod_lt _ (Nat.two_pow_pos _))]
    · have hgt : 7 - i % 8 < 7 - j % 8 := by omega
      rw [extract_high _ _ _ _ _ hgt hv (Nat.mod_lt _ (Nat.two_pow_pos _))]
      conv_rhs => rw [byte_decomp (buf (i / 8)) (7 - i % 8)]
      rw [extract_high _ _ _ _ _ hgt (Nat.mod_lt _ (by omega)) (Nat.mod_lt _ (Nat.two_pow_pos _))]
  · simp only [getBit, bufSetBit, if_neg hbyte]

theorem gbit_sbit (buf : Nat → Nat) (ofst : Nat) :
    ∀ w val, gbit (sbit buf ofst val w) ofst w = val % 2 ^ w := by
  intro w
  induction w with
  | zero => intro val; simp [gbit, sbit, Nat.mod_one]
  | succ w ih =>
    intro val
    simp only [sbit, gbit]
    rw [getBit_bufSetBit_self _ _ _ (Nat.mod_lt _ (by omega))]
    rw [gbit_congr (bufSetBit (sbit buf ofst (val / 2) w) (ofst + w) (val % 2))
      (sbit buf ofst (val / 2) w) ofst w
      (fun j hj1 hj2 => getBit_bufSetBit_ne _ _ _ _ (Nat.mod_lt _ (by omega)) (by omega))]
    rw [ih, mod_two_pow_succ]

theorem sbit_frame (buf : Nat → Nat) (ofst : Nat) :
    ∀ w val i, i * 8 + 8 ≤ ofst ∨ ofst + w ≤ i * 8 → sbit buf ofst val w i = buf i := by
  intro w
  induction w with
  | zero => intro val i _; rfl
  | succ w ih =>
    intro val i h
    simp only [sbit, bufSetBit]
    rw [if_neg (by omega)]
    exact ih (val / 2) i (by omega)

theorem sectionsAt_cons_iff (cgrib : Nat → Nat) (pos l : Nat) (ls : List Nat) :
    sectionsAt cgrib pos (l :: ls) = true ↔
      gbit cgrib (pos * 8) 32 = l ∧ sectionsAt cgrib (pos + l) ls = true := by
  simp [sectionsAt, Bool.and_eq_true, beq_iff_eq]

theorem length_le_sum : ∀ L : List Nat, (∀ l ∈ L, 0 < l) → L.length ≤ L.sum := by
  intro L
  induction L with
  | nil => intro _; simp
  | cons a L ih =>
    intro h
    have ha : 0 < a := h a (by simp)
    have hL := ih (fun l hl => h l (List.mem_cons_of_mem a hl))
    simp only [List.length_cons, List.sum_cons]
    omega

theorem gribendLoop_last (cgrib : Nat → Nat) (lencurr : Nat) :
    ∀ (L : List Nat) (pos llast fuel : Nat),
      sectionsAt cgrib pos (L ++ [llast]) = true →
      (∀ l ∈ L ++ [llast], 0 < l) →
      pos + (L.sum + llast) = lencurr →
      L.length < fuel →
      gribendLoop cgrib lencurr pos fuel =
        some (ScanOut.last (gbit cgrib ((pos + L.sum) * 8 + 32) 8)) := by
  intro L
  induction L with
  | nil =>
    intro pos llast fuel hs hpos hsum hfuel
    obtain ⟨f, rfl⟩ : ∃ f, fuel = f + 1 := ⟨fuel - 1, by omega⟩
    rw [List.nil_append, sectionsAt_cons_iff] at hs
    obtain ⟨hgb, -⟩ := hs
    simp only [List.sum_nil, Nat.zero_add, Nat.add_zero] at hsum ⊢
    simp only [gribendLoop, hgb]
    rw [if_pos hsum]
  | cons a L ih =>
    intro pos llast fuel hs hpos hsum hfuel
    obtain ⟨f, rfl⟩ : ∃ f, fuel = f + 1 := ⟨fuel - 1, by omega⟩
    rw [List.cons_append, sectionsAt_cons_iff] at hs
    obtain ⟨hgb, hrest⟩ := hs
    have hllast : 0 < llast := hpos llast (by simp)
    simp only [List.sum_cons] at hsum
    simp only [List.length_cons] at hfuel
    simp only [gribendLoop, hgb]
    rw [if_neg (by omega), if_neg (by omega)]
    have hih := ih (pos + a) llast f hrest
      (fun l hl => hpos l (List.mem_cons_of_mem a hl)) (by omega) (by omega)
    rw [hih, List.sum_cons]
    congr 3
    omega

theorem gribendLoop_mismatch (cgrib : Nat → Nat) (lencurr : Nat) :
    ∀ (L : List Nat) (pos lbad fuel : Nat),
      sectionsAt cgrib pos (L ++ [lbad]) = true →
      (∀ l ∈ L, 0 < l) →
      (∀ k, k ≤ L.length → pos + (L.take k).sum < lencurr) →
      lencurr < pos + (L.sum + lbad) →
      L.length < fuel →
      gribendLoop cgrib lencurr pos fuel = some ScanOut.mismatch := by
  intro L
  induction L with
  | nil =>
    intro pos lbad fuel hs hpos hlt hgt hfuel
    obtain ⟨f, rfl⟩ : ∃ f, fuel = f + 1 := ⟨fuel - 1, by omega⟩
    rw [List.nil_append, sectionsAt_cons_iff] at hs
    obtain ⟨hgb, -⟩ := hs
    simp only [List.sum_nil, Nat.zero_add] at hgt
    simp only [gribendLoop, hgb]
    rw [if_neg (by omega), if_pos (by omega)]
  | cons a L ih =>
    intro pos lbad fuel hs hpos hlt hgt hfuel
    obtain ⟨f, rfl⟩ : ∃ f, fuel = f + 1 := ⟨fuel - 1, by omega⟩
    rw [List.cons_append, sectionsAt_cons_iff] at hs
    obtain ⟨hgb, hrest⟩ := hs
    have h1 : pos + a < lencurr := by
      have := hlt 1 (by simp)
      simpa using this
    simp only [List.sum_cons] at hgt
    simp only [List.length_cons] at hfuel
    simp only [gribendLoop, hgb]
    rw [if_neg (by omega), if_neg (by omega)]
    refine ih (pos + a) lbad f hrest (fun l hl => hpos l (List.mem_cons_of_mem a hl))
      ?_ (by omega) (by omega)
    intro k hk
    have := hlt (k + 1) (by simpa using hk)
    simpa [Nat.add_assoc] using this

/-- C5: whenever the section-by-section scan of `g2_gribend` accumulates past
the stored total length without ever having equaled it, the finalize operation
returns the distinct structural-inconsistency code -3 and the buffer is
returned unmodified (no end marker, total-length field untouched). -/
theorem spec_gribend_inconsistent (cgrib : Nat → Nat) (L : List Nat) (lbad : Nat)
    (hg0 : cgrib 0 = 71) (hg1 : cgrib 1 = 82) (hg2 : cgrib 2 = 73) (hg3 : cgrib 3 = 66)
    (hs : sectionsAt cgrib 16 (L ++ [lbad]) = true)
    (hpos : ∀ l ∈ L, 0 < l)
    (hlt : ∀ k, k ≤ L.length → 16 + (L.take k).sum < gbit cgrib 96 32)
    (hgt : gbit cgrib 96 32 < 16 + (L.sum + lbad)) :
    g2_gribend cgrib = some (-3, cgrib) := by
  have hfuel : L.length < gbit cgrib 96 32 + 1 := by
    have h1 := hlt L.length (Nat.le_refl _)
    rw [List.take_length] at h1
    have h2 := length_le_sum L hpos
    omega
  unfold g2_gribend
  rw [if_pos ⟨hg0, hg1, hg2, hg3⟩,
    gribendLoop_mismatch cgrib (gbit cgrib 96 32) L 16 lbad _ hs hpos hlt hgt hfuel]

/-- C5 witness: finalizing an already finalized message (stored total 41,
single section of length 21 followed by the 0x37 end-marker octets, on which
the scan reads the end marker as a huge section length) is rejected with -3
and the buffer is returned untouched. -/
theorem spec_gribend_inconsistent_witness :
    g2_gribend bufGribendDone = some (-3, bufGribendDone) :=
  spec_gribend_inconsistent bufGribendDone [21] 926365495
    (by decide) (by decide) (by decide) (by decide)
    (by decide) (by decide) (by decide) (by decide)

/-- C6: if the declared section lengths accumulate exactly to the stored total
but the last section scanned is not section 7, `g2_gribend` fails with the
distinct out-of-order code -4 and the buffer is returned unmodified. -/
theorem spec_gribend_wrong_last (cgrib : Nat → Nat) (L : List Nat) (llast : Nat)
    (hg0 : cgrib 0 = 71) (hg1 : cgrib 1 = 82) (hg2 : cgrib 2 = 73) (hg3 : cgrib 3 = 66)
    (hs : sectionsAt cgrib 16 (L ++ [llast]) = true)
    (hpos : ∀ l ∈ L ++ [llast], 0 < l)
    (hlen : 16 + (L.sum + llast) = gbit cgrib 96 32)
    (hsec : gbit cgrib ((16 + L.sum) * 8 + 32) 8 ≠ 7) :
    g2_gribend cgrib = some (-4, cgrib) := by
  have hfuel : L.length < gbit cgrib 96 32 + 1 := by
    have h2 := length_le_sum L (fun l hl => hpos l (List.mem_append_left _ hl))
    omega
  unfold g2_gribend
  rw [if_pos ⟨hg0, hg1, hg2, hg3⟩,
    gribendLoop_last cgrib (gbit cgrib 96 32) L 16 llast _ hs hpos hlen hfuel]
  exact if_neg hsec

/-- C6 witness: a message holding only section 0 and a single section 1
(declared lengths summing exactly to the stored total 37) is rejected with -4
and nothing is written. -/
theorem spec_gribend_wrong_last_witness :
    g2_gribend bufGribendSec1 = some (-4, bufGribendSec1) :=
  spec_gribend_wrong_last bufGribendSec1 [] 21
    (by decide) (by decide) (by decide) (by decide)
    (by decide) (by decide) (by decide) (by decide)

/-- C1 (amended with the hypothesis that the updated total fits in 32 bits):
on a buffer with the GRIB marker whose stored total equals 16 plus the sum of
the declared section lengths and whose last section is section 7, finalizing
writes the four 0x37 end-marker octets at offset `old_total`, stores
`old_total + 4` in the total-length field, and returns `old_total + 4`, so the
total length read back equals `sum + 16 + 4`. -/
theorem spec_gribend_success (cgrib : Nat → Nat) (L : List Nat) (llast : Nat)
    (hg0 : cgrib 0 = 71) (hg1 : cgrib 1 = 82) (hg2 : cgrib 2 = 73) (hg3 : cgrib 3 = 66)
    (hs : sectionsAt cgrib 16 (L ++ [llast]) = true)
    (hpos : ∀ l ∈ L ++ [llast], 0 < l)
    (hlen : 16 + (L.sum + llast) = gbit cgrib 96 32)
    (hsec : gbit cgrib ((16 + L.sum) * 8 + 32) 8 = 7)
    (hov : 16 + (L.sum + llast) + 4 < 2 ^ 32) :
    g2_gribend cgrib =
      some (((16 + (L.sum + llast) + 4 : Nat) : Int),
        gribendFinal cgrib (16 + (L.sum + llast))) ∧
    gribendFinal cgrib (16 + (L.sum + llast)) (16 + (L.sum + llast)) = 55 ∧
    gribendFinal cgrib (16 + (L.sum + llast)) (16 + (L.sum + llast) + 1) = 55 ∧
    gribendFinal cgrib (16 + (L.sum + llast)) (16 + (L.sum + llast) + 2) = 55 ∧
    gribendFinal cgrib (16 + (L.sum + llast)) (16 + (L.sum + llast) + 3) = 55 ∧
    gbit (gribendFinal cgrib (16 + (L.sum + llast))) 96 32 = (L.sum + llast) + 16 + 4 := by
  have hfuel : L.length < gbit cgrib 96 32 + 1 := by
    have h2 := length_le_sum L (fun l hl => hpos l (List.mem_append_left _ hl))
    omega
  refine ⟨?_, ?_, ?_, ?_, ?_, ?_⟩
  · unfold g2_gribend
    rw [if_pos ⟨hg0, hg1, hg2, hg3⟩,
      gribendLoop_last cgrib (gbit cgrib 96 32) L 16 llast _ hs hpos hlen hfuel]
    rw [← hlen]
    exact if_pos hsec
  · unfold gribendFinal
    rw [sbit_frame _ 96 32 _ _ (Or.inr (by omega))]
    simp [writeByte]
  · unfold gribendFinal
    rw [sbit_frame _ 96 32 _ _ (Or.inr (by omega))]
    simp [writeByte]
  · unfold gribendFinal
    rw [sbit_frame _ 96 32 _ _ (Or.inr (by omega))]
    simp [writeByte]
  · unfold gribendFinal
    rw [sbit_frame _ 96 32 _ _ (Or.inr (by omega))]
    simp [writeByte]
  · unfold gribendFinal
    rw [gbit_sbit]
    rw [Nat.mod_eq_of_lt (by omega)]
    omega

/-- C1 witness: a concrete unfinalized message (stored total 37, one section
of length 21 with section number 7) finalizes to return 41, carries the four
0x37 octets at bytes 37-40, and reads back total length 21 + 16 + 4. -/
theorem spec_gribend_success_witness :
    g2_gribend bufGribendOk =
      some ((41 : Int), gribendFinal bufGribendOk 37) ∧
    gribendFinal bufGribendOk 37 37 = 55 ∧
    gribendFinal bufGribendOk 37 38 = 55 ∧
    gribendFinal bufGribendOk 37 39 = 55 ∧
    gribendFinal bufGribendOk 37 40 = 55 ∧
    gbit (gribendFinal bufGribendOk 37) 96 32 = 21 + 16 + 4 :=
  spec_gribend_success bufGribendOk [] 21
    (by decide) (by decide) (by decide) (by decide)
    (by decide) (by decide) (by decide) (by decide) (by decide)

set_option maxRecDepth 100000 in
/-- C1 counterexample: a buffer satisfying every hypothesis of the claim (GRIB
marker, stored 32-bit total = 16 + sum of declared section lengths with the
single section length 2^32 - 17, last section number 7) for which finalizing
returns `old_total + 4` but stores `(old_total + 4) mod 2^32 = 3` in the
32-bit field, so the total length read back is 3, not
`sum + 16 + 4 = 2^32 + 3`: the claimed invariant fails. -/
theorem spec_gribend_total_cex :
    (bufGribendHuge 0 = 71 ∧ bufGribendHuge 1 = 82 ∧
      bufGribendHuge 2 = 73 ∧ bufGribendHuge 3 = 66) ∧
    gbit bufGribendHuge 96 32 = 16 + (2 ^ 32 - 17) ∧
    gbit bufGribendHuge 128 32 = 2 ^ 32 - 17 ∧
    gbit bufGribendHuge 160 8 = 7 ∧
    (g2_gribend bufGribendHuge).map Prod.fst = some ((16 + (2 ^ 32 - 17) + 4 : Nat) : Int) ∧
    (g2_gribend bufGribendHuge).elim 0 (fun r => gbit r.2 96 32) = 3 ∧
    (3 : Nat) ≠ (2 ^ 32 - 17) + 16 + 4 := by
  refine ⟨by decide, by decide, by decide, by decide, ?_, ?_, by decide⟩
  · decide
  · decide

theorem getD_replicate_of_lt {α : Type} (a d : α) :
    ∀ n j, j < n → (List.replicate n a).getD j d = a := by
  intro n
  induction n with
  | zero => intro j h; omega
  | succ n ih =>
    intro j h
    cases j with
    | zero => rfl
    | succ j => exact ih j (by omega)

/-- C2: for the simple packing scheme, whenever the bit width `idrstmpl 3` is
zero, `simunpack` returns status 0 and every one of the `ndpts` output values
equals the reference value decoded from `idrstmpl 0`, for every count and
every packed-data buffer (the intermediate allocation is modelled as
succeeding). -/
theorem spec_simunpack_const (cpack : Nat → Nat) (idrstmpl : Nat → Int) (ndpts : Nat)
    (h : idrstmpl 3 = 0) :
    (simunpack cpack idrstmpl ndpts).1 = 0 ∧
    (simunpack cpack idrstmpl ndpts).2.length = ndpts ∧
    ∀ j, j < ndpts → (simunpack cpack idrstmpl ndpts).2.getD j 0 = rdieeeQ (idrstmpl 0) := by
  have hred : simunpack cpack idrstmpl ndpts =
      (0, List.replicate ndpts (rdieeeQ (idrstmpl 0))) := by
    unfold simunpack
    rw [h]
    simp
  rw [hred]
  exact ⟨rfl, List.length_replicate _ _, fun j hj => getD_replicate_of_lt _ _ _ j hj⟩

/-- C2 witness: a concrete zero-bit-width DRT 5.0 instance with three grid
points, every output equal to the decoded reference value. -/
theorem spec_simunpack_const_witness :
    drsTmplConst 3 = 0 ∧
    ((simunpack (fun _ => 0) drsTmplConst 3).1 = 0 ∧
     (simunpack (fun _ => 0) drsTmplConst 3).2.length = 3 ∧
     ∀ j, j < 3 → (simunpack (fun _ => 0) drsTmplConst 3).2.getD j 0 =
       rdieeeQ (drsTmplConst 0)) :=
  ⟨by decide, spec_simunpack_const (fun _ => 0) drsTmplConst 3 (by decide)⟩

/-- C3: on a successfully decoded Grid Definition Section whose template
number lies outside the supported set (not 0-3, 10, 20, 30, 40-43, 90 or 110
for the dimension query; not 50-53 for the pentagonal query), `getdim` returns
0 with width = height = scan = 0, and `getpoly` returns 0 with J = K = M = 0:
all-zero results, no error. -/
theorem spec_griddim_unknown (r : GdsResult) (w0 h0 s0 j0 k0 m0 : Int) :
    (¬(r.igds 4 = 0 ∨ r.igds 4 = 1 ∨ r.igds 4 = 2 ∨ r.igds 4 = 3 ∨
       r.igds 4 = 10 ∨ r.igds 4 = 20 ∨ r.igds 4 = 30 ∨
       r.igds 4 = 40 ∨ r.igds 4 = 41 ∨ r.igds 4 = 42 ∨ r.igds 4 = 43 ∨
       r.igds 4 = 90 ∨ r.igds 4 = 110) →
      getdim (some r) w0 h0 s0 = (0, 0, 0, 0)) ∧
    (¬(r.igds 4 = 50 ∨ r.igds 4 = 51 ∨ r.igds 4 = 52 ∨ r.igds 4 = 53) →
      getpoly (some r) j0 k0 m0 = (0, 0, 0, 0)) := by
  constructor
  · intro h
    simp only [getdim]
    rw [if_neg (by tauto), if_neg (by tauto), if_neg (by tauto), if_neg (by tauto),
      if_neg (by tauto), if_neg (by tauto), if_neg (by tauto)]
  · intro h
    simp only [getpoly]
    rw [if_neg h]

/-- C3 witness: the unrecognized template number 9999 yields the all-zero
results from both queries. -/
theorem spec_griddim_unknown_witness :
    getdim (some gdsUnknown) 1 2 3 = (0, 0, 0, 0) ∧
    getpoly (some gdsUnknown) 4 5 6 = (0, 0, 0, 0) :=
  ⟨(spec_griddim_unknown gdsUnknown 1 2 3 4 5 6).1 (by decide),
   (spec_griddim_unknown gdsUnknown 1 2 3 4 5 6).2 (by decide)⟩

/-- C10: when the inner GDS decode fails, `getdim` writes 0 to width and
height but leaves the scan-mode output holding the caller's value `s0`, still
returning 0, whereas `getpoly` zeroes all three of its outputs. -/
theorem spec_griddim_decode_error_frame (w0 h0 s0 j0 k0 m0 : Int) :
    getdim none w0 h0 s0 = (0, 0, 0, s0) ∧
    getpoly none j0 k0 m0 = (0, 0, 0, 0) :=
  ⟨rfl, rfl⟩

theorem gbit_chunk (file : List Nat) (cb : Nat → Nat) (ipos nread k w : Nat)
    (h : k * 8 + w ≤ nread * 8) :
    gbit (chunkBuf file ipos nread cb) (k * 8) w = gbit (fileByte file) ((ipos + k) * 8) w := by
  have h1 : gbit (chunkBuf file ipos nread cb) (k * 8) w
      = gbit (fun i => fileByte file (ipos + i)) (k * 8) w := by
    apply gbit_congr
    intro j hj1 hj2
    have hj8 : j / 8 < nread := by omega
    simp only [getBit, chunkBuf, fileByte]
    rw [if_pos hj8]
  rw [h1, gbit_shift]
  congr 1
  ring

theorem scanChunk_found (file : List Nat) (c : Nat → Nat) (ipos : Nat) :
    ∀ rem k spos kf l, scanChunk file c ipos rem k spos = some (kf, l) →
      k ≤ kf ∧ kf < k + rem ∧
      gbit c (kf * 8) 32 = 1196575042 ∧
      (gbit c ((kf + 7) * 8) 8 = 1 ∨ gbit c ((kf + 7) * 8) 8 = 2) ∧
      l = candLen c kf ∧
      ∃ q, endOk file q = true ∧ (4 ≤ ipos + kf + l → q = ipos + kf + l - 4) := by
  intro rem
  induction rem with
  | zero => intro k spos kf l h; simp [scanChunk] at h
  | succ rem ih =>
    intro k spos kf l h
    simp only [scanChunk] at h
    by_cases h1 : gbit c (k * 8) 32 = 1196575042 ∧
        (gbit c ((k + 7) * 8) 8 = 1 ∨ gbit c ((k + 7) * 8) 8 = 2)
    · rw [if_pos h1] at h
      by_cases h2 : endOk file (endReadPos ipos k (candLen c k) spos) = true
      · rw [if_pos h2] at h
        obtain ⟨rfl, rfl⟩ : k = kf ∧ candLen c k = l := by
          simpa using h
        refine ⟨Nat.le_refl _, by omega, h1.1, h1.2, rfl,
          endReadPos ipos k (candLen c k) spos, h2, fun h4 => ?_⟩
        unfold endReadPos
        rw [if_pos h4]
      · rw [if_neg h2] at h
        obtain ⟨hk, hlim, h3, h4, h5, h6⟩ := ih _ _ kf l h
        exact ⟨by omega, by omega, h3, h4, h5, h6⟩
    · rw [if_neg h1] at h
      obtain ⟨hk, hlim, h3, h4, h5, h6⟩ := ih _ _ kf l h
      exact ⟨by omega, by omega, h3, h4, h5, h6⟩

theorem fileByte_lt (file : List Nat) (hb : ∀ b ∈ file, b < 256) (i : Nat) :
    fileByte file i < 256 := by
  unfold fileByte
  by_cases hi : i < file.length
  · rw [List.getD_eq_getElem file 0 hi]
    exact hb _ (List.getElem_mem hi)
  · rw [List.getD_eq_default file 0 (by omega)]
    omega

theorem markerAt_of_endOk (file : List Nat) (s l q : Nat) (h4 : 4 ≤ s + l)
    (hq : q = s + l - 4) (h : endOk file q = true) :
    markerAt file (((s + l : Nat) : Int) - 4) = true := by
  have htn : (((s + l : Nat) : Int) - 4).toNat = q := by omega
  have hpos : (0 : Int) ≤ ((s + l : Nat) : Int) - 4 := by omega
  simp only [markerAt, htn, Bool.and_eq_true, decide_eq_true_eq, beq_iff_eq]
  simp only [endOk, Bool.and_eq_true, decide_eq_true_eq, beq_iff_eq] at h
  tauto

theorem seekgbLoop_found (file : List Nat) (mseek : Nat) (hb : ∀ b ∈ file, b < 256) :
    ∀ fuel cb ipos s l, seekgbLoop file mseek cb ipos fuel = some (some (s, l)) →
      l ≠ 0 ∧
      fileByte file s = 71 ∧ fileByte file (s + 1) = 82 ∧
      fileByte file (s + 2) = 73 ∧ fileByte file (s + 3) = 66 ∧
      (fileByte file (s + 7) = 1 ∨ fileByte file (s + 7) = 2) ∧
      (4 ≤ s + l → markerAt file (((s + l : Nat) : Int) - 4) = true) := by
  intro fuel
  induction fuel with
  | zero => intro cb ipos s l h; simp [seekgbLoop] at h
  | succ fuel ih =>
    intro cb ipos s l h
    simp only [seekgbLoop] at h
    rcases hscan : scanChunk file (chunkBuf file ipos (min mseek (file.length - ipos)) cb) ipos
        (min mseek (file.length - ipos) - 8) 0 (ipos + min mseek (file.length - ipos))
      with _ | ⟨k, lengrib⟩
    · rw [hscan] at h
      dsimp only at h
      by_cases hc : min mseek (file.length - ipos) = mseek
      · rw [if_pos hc] at h
        exact ih _ _ s l h
      · rw [if_neg hc] at h
        simp at h
    · rw [hscan] at h
      dsimp only at h
      by_cases hl0 : lengrib ≠ 0
      · rw [if_pos hl0] at h
        obtain ⟨rfl, rfl⟩ : ipos + k = s ∧ lengrib = l := by simpa using h
        obtain ⟨hk0, hklim, hstart, hvers, hlen, q, hq1, hq2⟩ :=
          scanChunk_found file _ ipos _ 0 _ k lengrib hscan
        have hnr : k + 8 < min mseek (file.length - ipos) := by omega
        have ht := gbit_chunk file cb ipos (min mseek (file.length - ipos)) k 32 (by omega)
        rw [ht, gbit32_bytes] at hstart
        norm_num at hstart
        have ht7 := gbit_chunk file cb ipos (min mseek (file.length - ipos)) (k + 7) 8 (by omega)
        rw [ht7, gbit_byte, ← Nat.add_assoc] at hvers
        have hb0 := fileByte_lt file hb (ipos + k)
        have hb1 := fileByte_lt file hb (ipos + k + 1)
        have hb2 := fileByte_lt file hb (ipos + k + 2)
        have hb3 := fileByte_lt file hb (ipos + k + 3)
        have hb7 := fileByte_lt file hb (ipos + k + 7)
        refine ⟨hl0, by omega, by omega, by omega, by omega, ?_, ?_⟩
        · rcases hvers with hv | hv
          · left; omega
          · right; omega
        · intro h4
          exact markerAt_of_endOk file (ipos + k) lengrib q h4 (hq2 h4) hq1
      · rw [if_neg hl0] at h
        by_cases hc : min mseek (file.length - ipos) = mseek
        · rw [if_pos hc] at h
          exact ih _ _ s l h
        · rw [if_neg hc] at h
          simp at h

theorem seekgbLoop_term (file : List Nat) (mseek : Nat) (hm : 8 < mseek) :
    ∀ fuel cb ipos, 1 ≤ fuel → file.length + 1 ≤ ipos + fuel →
      seekgbLoop file mseek cb ipos fuel ≠ none := by
  intro fuel
  induction fuel with
  | zero => intro cb ipos h1 _; omega
  | succ fuel ih =>
    intro cb ipos _ h2
    simp only [seekgbLoop]
    rcases hscan : scanChunk file (chunkBuf file ipos (min mseek (file.length - ipos)) cb) ipos
        (min mseek (file.length - ipos) - 8) 0 (ipos + min mseek (file.length - ipos))
      with _ | ⟨k, lengrib⟩
    · dsimp only
      by_cases hc : min mseek (file.length - ipos) = mseek
      · rw [if_pos hc]
        exact ih _ _ (by omega) (by omega)
      · rw [if_neg hc]
        simp
    · dsimp only
      by_cases hl0 : lengrib ≠ 0
      · rw [if_pos hl0]
        simp
      · rw [if_neg hl0]
        by_cases hc : min mseek (file.length - ipos) = mseek
        · rw [if_pos hc]
          exact ih _ _ (by omega) (by omega)
        · rw [if_neg hc]
          simp

theorem scanChunk_skip (file : List Nat) (c : Nat → Nat) (ipos rem k spos : Nat)
    (h1 : gbit c (k * 8) 32 = 1196575042)
    (h2 : gbit c ((k + 7) * 8) 8 = 1 ∨ gbit c ((k + 7) * 8) 8 = 2)
    (hend : endOk file (endReadPos ipos k (candLen c k) spos) = false) :
    scanChunk file c ipos (rem + 1) k spos =
      scanChunk file c ipos rem (k + 1)
        (endReadPos ipos k (candLen c k) spos +
          min 4 (file.length - endReadPos ipos k (candLen c k) spos)) := by
  simp only [scanChunk]
  rw [if_pos ⟨h1, h2⟩, if_neg (by rw [hend]; simp)]

/-- C4 (amended: the end-marker conclusion of a found report holds whenever
the declared end position is nonnegative, `4 ≤ lskip + lgrib`; in the
remaining degenerate reports the unchecked fseek failure at seekgb.c makes
the code verify the marker at the stale stream position instead):
(a) whenever the boundary scanner reports a found message `(lskip, lgrib)`,
`lgrib` is nonzero, the 4 start-marker octets "GRIB" are at file offset
`lskip`, the octet 7 positions later is 1 or 2, and — when
`4 ≤ lskip + lgrib` — the end marker is present at the declared
end-of-message position `lskip + lgrib - 4`; (b) a candidate whose end-marker
read fails is skipped and the scan continues from the next candidate byte,
the stream position advanced by the octets read; (c) for a chunk size above 8
the scan always terminates with a defined outcome, a short read with no match
giving the not-found result (zero length), not an error.  `heap` is the
arbitrary initial content of the chunk allocation. -/
theorem spec_seekgb (file : List Nat) (iseek mseek : Nat) (heap : Nat → Nat)
    (hb : ∀ b ∈ file, b < 256) :
    (∀ s l, seekgb file iseek mseek heap = some (some (s, l)) →
      l ≠ 0 ∧ fileByte file s = 71 ∧ fileByte file (s + 1) = 82 ∧
      fileByte file (s + 2) = 73 ∧ fileByte file (s + 3) = 66 ∧
      (fileByte file (s + 7) = 1 ∨ fileByte file (s + 7) = 2) ∧
      (4 ≤ s + l → markerAt file (((s + l : Nat) : Int) - 4) = true)) ∧
    (∀ (c : Nat → Nat) (ipos rem k spos : Nat),
      gbit c (k * 8) 32 = 1196575042 →
      (gbit c ((k + 7) * 8) 8 = 1 ∨ gbit c ((k + 7) * 8) 8 = 2) →
      endOk file (endReadPos ipos k (candLen c k) spos) = false →
      scanChunk file c ipos (rem + 1) k spos =
        scanChunk file c ipos rem (k + 1)
          (endReadPos ipos k (candLen c k) spos +
            min 4 (file.length - endReadPos ipos k (candLen c k) spos))) ∧
    (8 < mseek → ∃ r, seekgb file iseek mseek heap = some r) := by
  refine ⟨fun s l h => seekgbLoop_found file mseek hb _ heap iseek s l h,
          fun c ipos rem k spos h1 h2 h3 => scanChunk_skip file c ipos rem k spos h1 h2 h3,
          fun hm => ?_⟩
  rcases hre : seekgb file iseek mseek heap with _ | r
  · have hne := seekgbLoop_term file mseek hm (file.length + 2) heap iseek (by omega) (by omega)
    unfold seekgb at hre
    exact absurd hre hne
  · exact ⟨r, rfl⟩

/-- C4 counterexample: on `fileC4Bad` (GRIB, edition 2, declared length 3,
the 0x37 octets at bytes 16-19, chunk size 16) the scanner reports a found
message at offset 0 with nonzero declared length 3, yet the declared
end-of-message position 0 + 3 - 4 is negative and carries no end marker: the
unchecked fseek fails and the marker octets were verified at the stale stream
position 16 (the end of the chunk read) instead, so the claimed
verified-triple property of found reports is false of the code. -/
theorem spec_seekgb_cex :
    seekgb fileC4Bad 0 16 (fun _ => 0) = some (some (0, 3)) ∧
    markerAt fileC4Bad (((0 + 3 : Nat) : Int) - 4) = false := by
  refine ⟨by decide, by decide⟩

/-- C4 witness: on the concrete 39-octet source, the scanner finds the
message at offset 2 with declared length 37 and the verified triple holds at
the declared end position 35; a failed end-marker read (empty source) moves
the inner scan to the next candidate byte with the stream position updated;
and the scan has a defined outcome. -/
theorem spec_seekgb_witness :
    seekgb fileC4 0 64 (fun _ => 0) = some (some (2, 37)) ∧
    (37 ≠ 0 ∧ fileByte fileC4 2 = 71 ∧ fileByte fileC4 (2 + 1) = 82 ∧
     fileByte fileC4 (2 + 2) = 73 ∧ fileByte fileC4 (2 + 3) = 66 ∧
     (fileByte fileC4 (2 + 7) = 1 ∨ fileByte fileC4 (2 + 7) = 2) ∧
     (4 ≤ 2 + 37 → markerAt fileC4 (((2 + 37 : Nat) : Int) - 4) = true)) ∧
    scanChunk [] (fileByte fileC4) 0 6 2 0 =
      scanChunk [] (fileByte fileC4) 0 5 3
        (endReadPos 0 2 (candLen (fileByte fileC4) 2) 0 +
          min 4 (List.length ([] : List Nat) - endReadPos 0 2 (candLen (fileByte fileC4) 2) 0)) ∧
    (∃ r, seekgb fileC4 0 64 (fun _ => 0) = some r) :=
  ⟨by decide,
   (spec_seekgb fileC4 0 64 (fun _ => 0) (by decide)).1 2 37 (by decide),
   (spec_seekgb [] 0 64 (fun _ => 0) (by decide)).2.1 (fileByte fileC4) 0 5 2 0 (by decide)
     (by decide) (by decide),
   (spec_seekgb fileC4 0 64 (fun _ => 0) (by decide)).2.2 (by decide)⟩

/-- C7 (amended to declared lengths of at least 5, the octets the section
header itself occupies): positioned at a section, the local-use decoder
returns the section-mismatch error 2 when the section number octet is not 2;
with section number 2 and declared length exactly 5 (payload length 0) it
returns success with length 0 and a null pointer; with declared length above 5
it returns success, the payload length, and a freshly built byte-for-byte copy
of the payload, the cursor advanced past the payload. -/
theorem spec_unpack2_decode (cgrib : Nat → Nat) (iofst : Nat) :
    (gbit cgrib (iofst + 32) 8 ≠ 2 →
      g2_unpack2 cgrib iofst = (2, (iofst : Int) + 40, 0, none)) ∧
    (gbit cgrib (iofst + 32) 8 = 2 → gbit cgrib iofst 32 = 5 →
      g2_unpack2 cgrib iofst = (0, (iofst : Int) + 40, 0, none)) ∧
    (gbit cgrib (iofst + 32) 8 = 2 → 5 < gbit cgrib iofst 32 →
      ∃ pl : List Nat,
        g2_unpack2 cgrib iofst =
          (0, (iofst : Int) + 40 + ((gbit cgrib iofst 32 : Int) - 5) * 8,
            (gbit cgrib iofst 32 : Int) - 5, some pl) ∧
        pl.length = gbit cgrib iofst 32 - 5 ∧
        ∀ j, j < gbit cgrib iofst 32 - 5 →
          pl.getD j 0 = cgrib ((iofst + 40) / 8 + j)) := by
  refine ⟨fun h => ?_, fun h2 h5 => ?_, fun h2 h5 => ?_⟩
  · unfold g2_unpack2
    rw [if_pos h]
  · unfold g2_unpack2
    rw [if_neg (not_not_intro h2), if_pos (by rw [h5]; norm_num)]
  · unfold g2_unpack2
    rw [if_neg (not_not_intro h2), if_neg (by omega), if_neg (by omega)]
    refine ⟨_, rfl, ?_, ?_⟩
    · simp only [List.length_map, List.length_range]
      omega
    · intro j hj
      have hm : j < ((List.range (((gbit cgrib iofst 32 : Int) - 5).toNat)).map
          (fun j => cgrib ((iofst + 40) / 8 + j))).length := by
        simp only [List.length_map, List.length_range]
        omega
      rw [List.getD_eq_getElem _ _ hm]
      simp

/-- C7 counterexample: a buffer positioned at a section whose section number
octet is 2 but whose declared length is 0 (payload length -5, nonzero): the
claim asserts success with a payload copy, but the decoder returns the
allocation-failure error 6 with a null pointer. -/
theorem spec_unpack2_cex :
    gbit bufUnpack2Bad 32 8 = 2 ∧
    g2_unpack2 bufUnpack2Bad 0 = (6, 40, 0, none) ∧ (6 : Int) ≠ 0 := by
  refine ⟨by decide, by decide, by decide⟩

/-- C7 witness: a concrete section 2 of declared length 7 decodes to success,
payload length 2, and the two payload octets copied. -/
theorem spec_unpack2_decode_witness :
    gbit bufUnpack2Ok 32 8 = 2 ∧ 5 < gbit bufUnpack2Ok 0 32 ∧
    (∃ pl : List Nat,
      g2_unpack2 bufUnpack2Ok 0 =
        (0, ((0 : Nat) : Int) + 40 + ((gbit bufUnpack2Ok 0 32 : Int) - 5) * 8,
          (gbit bufUnpack2Ok 0 32 : Int) - 5, some pl) ∧
      pl.length = gbit bufUnpack2Ok 0 32 - 5 ∧
      ∀ j, j < gbit bufUnpack2Ok 0 32 - 5 →
        pl.getD j 0 = bufUnpack2Ok ((0 + 40) / 8 + j)) :=
  ⟨by decide, by decide, (spec_unpack2_decode bufUnpack2Ok 0).2.2 (by decide) (by decide)⟩

/-- C9: in the bit-map decoder, with section number 6, bit-map indicator 0 and
`ngpts ≤ 0`, the function returns error code 6 (documented as allocation
failure) with the bit-map output left null, although no allocation was
attempted: decoding an indicator-0 bit-map has the unstated precondition
`ngpts > 0`. -/
theorem spec_unpack6_nonpos (cgrib : Nat → Nat) (iofst : Nat) (ngpts : Int)
    (h6 : gbit cgrib (iofst + 32) 8 = 6) (h0 : gbit cgrib (iofst + 40) 8 = 0)
    (hn : ngpts ≤ 0) :
    g2_unpack6 cgrib iofst ngpts = (6, iofst + 48, some 0, none) := by
  unfold g2_unpack6
  rw [if_neg (not_not_intro h6), if_pos h0, if_neg (by omega), h0]

/-- C9 witness: the concrete section 6 buffer with indicator 0 and zero grid
points returns error 6 with a null bit-map. -/
theorem spec_unpack6_nonpos_witness :
    gbit bufUnpack6 32 8 = 6 ∧ gbit bufUnpack6 40 8 = 0 ∧ (0 : Int) ≤ 0 ∧
    g2_unpack6 bufUnpack6 0 0 = (6, 48, some 0, none) :=
  ⟨by decide, by decide, Int.le_refl 0,
    spec_unpack6_nonpos bufUnpack6 0 0 (by decide) (by decide) (by decide)⟩

theorem getdrsindexAux_eq_neg1 (number : Int) :
    ∀ (table : List DrsEntry) (j : Nat),
      getdrsindexAux table number j = -1 ↔ drsfind table number = none := by
  intro table
  induction table with
  | nil => intro j; simp [getdrsindexAux, drsfind]
  | cons e rest ih =>
    intro j
    simp only [getdrsindexAux, drsfind]
    by_cases he : e.template_num = number
    · rw [if_pos he, if_pos he]
      constructor
      · intro h
        exfalso
        omega
      · intro h
        exact absurd h (by simp)
    · rw [if_neg he, if_neg he]
      exact ih (j + 1)

theorem drsfind_eq_none (number : Int) :
    ∀ table : List DrsEntry, (∀ e ∈ table, e.template_num ≠ number) →
      drsfind table number = none := by
  intro table
  induction table with
  | nil => intro _; rfl
  | cons e rest ih =>
    intro h
    simp only [drsfind]
    rw [if_neg (h e (by simp))]
    exact ih (fun x hx => h x (List.mem_cons_of_mem e hx))

theorem getdrstemplate_fixed (table : List DrsEntry) (number : Int) (t : Gtemplate)
    (h : getdrstemplate table number = some t) : t.extlen = 0 ∧ t.ext = [] := by
  unfold getdrstemplate at h
  rcases hf : drsfind table number with _ | e
  · rw [hf] at h
    simp at h
  · rw [hf] at h
    simp only [Option.map_some', Option.some.injEq] at h
    rw [← h]
    exact ⟨rfl, rfl⟩

theorem getdrsindex_ne_neg1 (table : List DrsEntry) (number : Int) (t : Gtemplate)
    (h : getdrstemplate table number = some t) : getdrsindex table number ≠ -1 := by
  intro hidx
  unfold getdrsindex at hidx
  rw [getdrsindexAux_eq_neg1] at hidx
  unfold getdrstemplate at h
  rw [hidx] at h
  simp at h

/-- C8: (a) for a registry number whose needs-extension flag is unset,
resolution returns the fixed layout unchanged, with extension length 0 and an
empty extension map; (b) for the extensible template number 1, resolution
appends exactly `list 10 + list 12` extension descriptors, every one of width
4 octets (the count matching when the sum is nonnegative); (c) for a number
absent from the registry, both lookup and resolution return the null
(not-found) result rather than failing. -/
theorem spec_drstemplates (table : List DrsEntry) (number : Int) (list : Nat → Int) :
    (∀ t, getdrstemplate table number = some t → t.needext = false →
      extdrstemplate table number list = some t ∧ t.extlen = 0 ∧ t.ext = []) ∧
    (∀ t, getdrstemplate table 1 = some t → t.needext = true →
      extdrstemplate table 1 list =
        some ⟨t.type, t.num, t.maplen, t.needext, t.map, list 10 + list 12,
          List.replicate (list 10 + list 12).toNat 4⟩ ∧
      (0 ≤ list 10 + list 12 →
        ((List.replicate (list 10 + list 12).toNat (4 : Int)).length : Int) =
          list 10 + list 12) ∧
      (∀ x ∈ List.replicate (list 10 + list 12).toNat (4 : Int), x = 4)) ∧
    ((∀ e ∈ table, e.template_num ≠ number) →
      getdrstemplate table number = none ∧ extdrstemplate table number list = none) := by
  refine ⟨fun t ht hnx => ?_, fun t ht hx => ?_, fun h => ?_⟩
  · obtain ⟨he0, he1⟩ := getdrstemplate_fixed table number t ht
    refine ⟨?_, he0, he1⟩
    unfold extdrstemplate
    rw [if_neg (getdrsindex_ne_neg1 table number t ht), ht]
    dsimp only
    rw [if_pos (by simp [hnx])]
  · refine ⟨?_, fun hnn => ?_, fun x hmem => List.eq_of_mem_replicate hmem⟩
    · unfold extdrstemplate
      rw [if_neg (getdrsindex_ne_neg1 table 1 t ht), ht]
      dsimp only
      rw [if_neg (by simp [hx]), if_pos rfl]
    · simp only [List.length_replicate]
      omega
  · have hf := drsfind_eq_none number table h
    constructor
    · unfold getdrstemplate
      rw [hf]
      rfl
    · unfold extdrstemplate
      rw [if_pos (by unfold getdrsindex; rw [getdrsindexAux_eq_neg1]; exact hf)]

/-- C8 witness: on a concrete two-row registry, template 0 (flag unset)
resolves to its fixed layout with empty extension; template 1 with
`list 10 = list 12 = 3` resolves with six extension descriptors of width 4;
the absent number 99 gives null from both lookup and resolution. -/
theorem spec_drstemplates_witness :
    (extdrstemplate drsTableW 0 (fun _ => 3) =
        some ⟨5, 0, 18, false, [4, 1, 1, 1, 1], 0, []⟩ ∧
      (⟨5, 0, 18, false, [4, 1, 1, 1, 1], 0, []⟩ : Gtemplate).extlen = 0) ∧
    extdrstemplate drsTableW 1 (fun _ => 3) =
      some ⟨5, 1, 18, true, [4, 1, 1, 1, 1], 6, List.replicate 6 4⟩ ∧
    (getdrstemplate drsTableW 99 = none ∧
      extdrstemplate drsTableW 99 (fun _ => 3) = none) :=
  ⟨⟨((spec_drstemplates drsTableW 0 (fun _ => 3)).1
      ⟨5, 0, 18, false, [4, 1, 1, 1, 1], 0, []⟩ (by decide) rfl).1,
    rfl⟩,
   ((spec_drstemplates drsTableW 1 (fun _ => 3)).2.1
      ⟨5, 1, 18, true, [4, 1, 1, 1, 1], 0, []⟩ (by decide) rfl).1,
   (spec_drstemplates drsTableW 99 (fun _ => 3)).2.2 (by decide)⟩
